import Mathlib

/-!
# Verification of `scripts/fix_bind_pose.py`

A shallow embedding of the batch rest-pose correction script for the
Bandai-Namco motion dataset.  The script itself is glue over the external
`bvhio` / `spatial-transform` rigging library; the library's operations
(joint hierarchies, rest poses, keyframes, Euler angles, rolls, world
positions) are modelled here as executable Lean definitions over an
arbitrary field `K` of scalars (the script computes with floats; the model
is exact).  Rotations are 3x3 matrices; all angles the script uses are
multiples of 90 degrees, so every rotation matrix in play has entries
0, 1, -1.

Modelling decisions for the external library, used throughout:
* a transform is local position, rotation matrix and scale; its local
  matrix is `rotation * diag scale`, and an ancestor chain composes to an
  affine map (matrix and translation);
* loading a `.bvh` file presents the file's root joint wrapped in a
  synthetic container root (the joint the script drops with
  `clearParent()` at line 82 and addresses as `layout[0]` in pass 2);
* keyframes of the Bandai files are consecutively numbered from 0, so the
  model indexes a joint's keyframe list by position;
* `Transform.PositionWorld = w` solves for the local position through the
  inverse of the ancestor world matrix, the contract of the
  spatial-transform setter;
* `Joint.roll(deg)` multiplies the joint's rotation on the right by a
  rotation about the local Y axis; with `recursive=True` every descendant
  is rolled as well;
* `setEuler` composes the per-axis rotations; every Euler triple the
  script passes has at most one non-zero component, so the axis-order
  convention does not matter for the values proved about;
* `getKeyframeRange` reports the pair `(0, frame count)` that the script
  splats into Python's `range`.
-/

/-- A 3-component vector of scalars (models `glm.vec3`). -/
structure Vec3 (K : Type) where
  x : K
  y : K
  z : K
deriving DecidableEq, Repr

namespace Vec3

variable {K : Type} [Field K]

instance : Add (Vec3 K) := ⟨fun a b => ⟨a.x + b.x, a.y + b.y, a.z + b.z⟩⟩

instance : Sub (Vec3 K) := ⟨fun a b => ⟨a.x - b.x, a.y - b.y, a.z - b.z⟩⟩

instance : Zero (Vec3 K) := ⟨⟨0, 0, 0⟩⟩

theorem add_def (a b : Vec3 K) : a + b = ⟨a.x + b.x, a.y + b.y, a.z + b.z⟩ := rfl

theorem zero_def : (0 : Vec3 K) = ⟨0, 0, 0⟩ := rfl

theorem sub_def (a b : Vec3 K) : a - b = ⟨a.x - b.x, a.y - b.y, a.z - b.z⟩ := rfl

end Vec3

/-- A 3x3 matrix of scalars, row major (models a rotation/basis matrix). -/
structure Mat3 (K : Type) where
  a00 : K
  a01 : K
  a02 : K
  a10 : K
  a11 : K
  a12 : K
  a20 : K
  a21 : K
  a22 : K
deriving DecidableEq, Repr

namespace Mat3

variable {K : Type} [Field K]

/-- Matrix product. -/
protected def mul (m n : Mat3 K) : Mat3 K :=
  ⟨m.a00 * n.a00 + m.a01 * n.a10 + m.a02 * n.a20,
   m.a00 * n.a01 + m.a01 * n.a11 + m.a02 * n.a21,
   m.a00 * n.a02 + m.a01 * n.a12 + m.a02 * n.a22,
   m.a10 * n.a00 + m.a11 * n.a10 + m.a12 * n.a20,
   m.a10 * n.a01 + m.a11 * n.a11 + m.a12 * n.a21,
   m.a10 * n.a02 + m.a11 * n.a12 + m.a12 * n.a22,
   m.a20 * n.a00 + m.a21 * n.a10 + m.a22 * n.a20,
   m.a20 * n.a01 + m.a21 * n.a11 + m.a22 * n.a21,
   m.a20 * n.a02 + m.a21 * n.a12 + m.a22 * n.a22⟩

instance : Mul (Mat3 K) := ⟨Mat3.mul⟩

instance : One (Mat3 K) := ⟨⟨1, 0, 0, 0, 1, 0, 0, 0, 1⟩⟩

theorem mul_def (m n : Mat3 K) : m * n = m.mul n := rfl

theorem one_def : (1 : Mat3 K) = ⟨1, 0, 0, 0, 1, 0, 0, 0, 1⟩ := rfl

/-- Matrix applied to a column vector. -/
def mulVec (m : Mat3 K) (v : Vec3 K) : Vec3 K :=
  ⟨m.a00 * v.x + m.a01 * v.y + m.a02 * v.z,
   m.a10 * v.x + m.a11 * v.y + m.a12 * v.z,
   m.a20 * v.x + m.a21 * v.y + m.a22 * v.z⟩

/-- Determinant. -/
def det (m : Mat3 K) : K :=
  m.a00 * (m.a11 * m.a22 - m.a12 * m.a21)
    - m.a01 * (m.a10 * m.a22 - m.a12 * m.a20)
    + m.a02 * (m.a10 * m.a21 - m.a11 * m.a20)

/-- Adjugate (transposed cofactor matrix). -/
def adjugate (m : Mat3 K) : Mat3 K :=
  ⟨m.a11 * m.a22 - m.a12 * m.a21,
   m.a02 * m.a21 - m.a01 * m.a22,
   m.a01 * m.a12 - m.a02 * m.a11,
   m.a12 * m.a20 - m.a10 * m.a22,
   m.a00 * m.a22 - m.a02 * m.a20,
   m.a02 * m.a10 - m.a00 * m.a12,
   m.a10 * m.a21 - m.a11 * m.a20,
   m.a01 * m.a20 - m.a00 * m.a21,
   m.a00 * m.a11 - m.a01 * m.a10⟩

/-- Scalar multiple. -/
def smul (c : K) (m : Mat3 K) : Mat3 K :=
  ⟨c * m.a00, c * m.a01, c * m.a02, c * m.a10, c * m.a11, c * m.a12,
   c * m.a20, c * m.a21, c * m.a22⟩

/-- Inverse through the adjugate (the library inverts world matrices). -/
def inv (m : Mat3 K) : Mat3 K := smul m.det⁻¹ m.adjugate

theorem mul_mulVec (m n : Mat3 K) (v : Vec3 K) :
    (m * n).mulVec v = m.mulVec (n.mulVec v) := by
  simp only [mul_def, Mat3.mul, mulVec, Vec3.mk.injEq]
  refine ⟨?_, ?_, ?_⟩ <;> ring

theorem one_mulVec (v : Vec3 K) : (1 : Mat3 K).mulVec v = v := by
  cases v
  simp only [one_def, mulVec, Vec3.mk.injEq]
  and_intros <;> ring

theorem det_mul (m n : Mat3 K) : (m * n).det = m.det * n.det := by
  simp only [mul_def, Mat3.mul, det]
  ring

theorem det_one : (1 : Mat3 K).det = 1 := by
  simp only [one_def, det]
  ring

theorem mulVec_inv_mulVec (m : Mat3 K) (h : m.det ≠ 0) (v : Vec3 K) :
    m.mulVec (m.inv.mulVec v) = v := by
  cases v
  simp only [inv, smul, adjugate, mulVec, det, Vec3.mk.injEq] at *
  refine ⟨?_, ?_, ?_⟩ <;> field_simp <;> ring

theorem inv_mulVec_mulVec (m : Mat3 K) (h : m.det ≠ 0) (v : Vec3 K) :
    m.inv.mulVec (m.mulVec v) = v := by
  cases v
  simp only [inv, smul, adjugate, mulVec, det, Vec3.mk.injEq] at *
  refine ⟨?_, ?_, ?_⟩ <;> field_simp <;> ring

end Mat3

/-- Cosine of an integer angle in degrees; the script only ever rotates by
multiples of 90 degrees, for which the value is exact in any field. -/
def cosd {K : Type} [Field K] (d : ℤ) : K :=
  if d % 360 = 0 then 1
  else if d % 360 = 90 then 0
  else if d % 360 = 180 then -1
  else 0

/-- Sine of an integer angle in degrees (right-angle multiples only). -/
def sind {K : Type} [Field K] (d : ℤ) : K :=
  if d % 360 = 90 then 1
  else if d % 360 = 270 then -1
  else 0

/-- Right-handed rotation about the X axis by `d` degrees. -/
def rotX {K : Type} [Field K] (d : ℤ) : Mat3 K :=
  ⟨1, 0, 0,
   0, cosd d, -sind d,
   0, sind d, cosd d⟩

/-- Right-handed rotation about the Y axis by `d` degrees. -/
def rotY {K : Type} [Field K] (d : ℤ) : Mat3 K :=
  ⟨cosd d, 0, sind d,
   0, 1, 0,
   -sind d, 0, cosd d⟩

/-- Right-handed rotation about the Z axis by `d` degrees. -/
def rotZ {K : Type} [Field K] (d : ℤ) : Mat3 K :=
  ⟨cosd d, -sind d, 0,
   sind d, cosd d, 0,
   0, 0, 1⟩

/-- Models `setEuler((x, y, z))` of the spatial-transform library
(extrinsic, applied Z then X then Y).  Every Euler triple the script uses
has at most one non-zero component, so the order convention is irrelevant
to the constants proved about below. -/
def eulerXYZ {K : Type} [Field K] (x y z : ℤ) : Mat3 K :=
  rotY y * rotX x * rotZ z

/-- An affine map `v ↦ M v + p`: the composed world transform of an
ancestor chain. -/
structure Affine (K : Type) where
  M : Mat3 K
  p : Vec3 K
deriving DecidableEq, Repr

namespace Affine

variable {K : Type} [Field K]

/-- Apply the affine map to a point. -/
def apply (a : Affine K) (v : Vec3 K) : Vec3 K := a.M.mulVec v + a.p

/-- Composition: `(a.comp b).apply v = a.apply (b.apply v)`. -/
def comp (a b : Affine K) : Affine K := ⟨a.M * b.M, a.apply b.p⟩

/-- The identity affine map. -/
def id : Affine K := ⟨1, 0⟩

theorem apply_comp (a b : Affine K) (v : Vec3 K) :
    (a.comp b).apply v = a.apply (b.apply v) := by
  cases a; cases b
  simp only [comp, apply, Mat3.mul_def, Mat3.mul, Mat3.mulVec, Vec3.add_def, Vec3.mk.injEq]
  refine ⟨?_, ?_, ?_⟩ <;> ring

theorem comp_assoc (a b c : Affine K) :
    (a.comp b).comp c = a.comp (b.comp c) := by
  cases a; cases b; cases c
  simp only [comp, apply, Mat3.mul_def, Mat3.mul, Mat3.mulVec, Vec3.add_def,
    Affine.mk.injEq, Mat3.mk.injEq, Vec3.mk.injEq]
  and_intros <;> ring

theorem id_comp (a : Affine K) : Affine.id.comp a = a := by
  cases a with
  | mk M p =>
    cases M; cases p
    simp only [comp, apply, Affine.id, Mat3.one_def, Vec3.zero_def, Mat3.mul_def, Mat3.mul,
      Mat3.mulVec, Vec3.add_def, Affine.mk.injEq, Mat3.mk.injEq, Vec3.mk.injEq]
    and_intros <;> ring

theorem apply_injective (a : Affine K) (h : a.M.det ≠ 0) {v w : Vec3 K}
    (hvw : a.apply v = a.apply w) : v = w := by
  have h2 : a.M.mulVec v = a.M.mulVec w := by
    have h3 := hvw
    simp only [Affine.apply] at h3
    cases hv : a.M.mulVec v
    cases hw : a.M.mulVec w
    rw [hv, hw] at h3
    simp only [Vec3.add_def, Vec3.mk.injEq] at h3
    simp only [Vec3.mk.injEq]
    exact ⟨add_right_cancel h3.1, add_right_cancel h3.2.1, add_right_cancel h3.2.2⟩
  calc v = a.M.inv.mulVec (a.M.mulVec v) := (a.M.inv_mulVec_mulVec h v).symm
    _ = a.M.inv.mulVec (a.M.mulVec w) := by rw [h2]
    _ = w := a.M.inv_mulVec_mulVec h w

end Affine

/-- A local transform: position, rotation and scale (models
`spatial_transform.Transform` / a bvhio pose).  The script never touches
scale; the Bandai files carry unit scale. -/
structure Transform (K : Type) where
  position : Vec3 K
  rotation : Mat3 K
  scale : Vec3 K
deriving DecidableEq, Repr

namespace Transform

variable {K : Type} [Field K]

/-- Component-wise scale matrix. -/
def diagScale (s : Vec3 K) : Mat3 K :=
  ⟨s.x, 0, 0, 0, s.y, 0, 0, 0, s.z⟩

/-- The linear part of the transform's local matrix. -/
def matrix (t : Transform K) : Mat3 K := t.rotation * diagScale t.scale

/-- The transform as an affine map from child-local to parent-local
coordinates. -/
def toAffine (t : Transform K) : Affine K := ⟨t.matrix, t.position⟩

/-- The identity transform (unit rotation, unit scale, zero position). -/
def identity : Transform K := ⟨0, 1, ⟨1, 1, 1⟩⟩

/-- Models the `Transform.PositionWorld = w` setter of spatial-transform:
the local position is solved through the inverse of the ancestor world
matrix `ctx`, so that afterwards the world position is `w`. -/
def setPositionWorld (ctx : Affine K) (w : Vec3 K) (t : Transform K) : Transform K :=
  { t with position := ctx.M.inv.mulVec (w - ctx.p) }

theorem setPositionWorld_rotation (ctx : Affine K) (w : Vec3 K) (t : Transform K) :
    (t.setPositionWorld ctx w).rotation = t.rotation := rfl

theorem setPositionWorld_scale (ctx : Affine K) (w : Vec3 K) (t : Transform K) :
    (t.setPositionWorld ctx w).scale = t.scale := rfl

/-- After the setter, applying the ancestor world map to the stored local
position gives back the requested world position (the setter's contract,
given an invertible ancestor matrix). -/
theorem apply_setPositionWorld (ctx : Affine K) (h : ctx.M.det ≠ 0) (w : Vec3 K)
    (t : Transform K) : ctx.apply (t.setPositionWorld ctx w).position = w := by
  simp only [setPositionWorld, Affine.apply, Mat3.mulVec_inv_mulVec ctx.M h]
  cases w; cases ctx.p
  simp only [Vec3.sub_def, Vec3.add_def, Vec3.mk.injEq]
  and_intros <;> ring

end Transform

mutual
/-- A joint of the loaded hierarchy (models `bvhio.Joint`): name, rest
pose, keyframes (the Bandai files number frames consecutively from 0, so
keyframe `f` is the list entry at position `f`), children. -/
inductive Joint (K : Type) where
  | mk (name : String) (restPose : Transform K) (keyframes : List (Transform K))
      (children : JointList K)
/-- The children of a joint. -/
inductive JointList (K : Type) where
  | nil
  | cons (head : Joint K) (tail : JointList K)
end

namespace Joint

variable {K : Type}

/-- The joint's name. -/
def name : Joint K → String
  | .mk n _ _ _ => n

/-- The joint's rest-pose transform (models `Joint.RestPose`). -/
def restPose : Joint K → Transform K
  | .mk _ r _ _ => r

/-- The joint's keyframes (models `Joint.Keyframes`). -/
def keyframes : Joint K → List (Transform K)
  | .mk _ _ k _ => k

/-- The joint's children (models `Joint.Children`). -/
def children : Joint K → JointList K
  | .mk _ _ _ c => c

end Joint

namespace JointList

variable {K : Type}

/-- The children as a plain list. -/
def toList : JointList K → List (Joint K)
  | .nil => []
  | .cons j tl => j :: tl.toList

/-- First child, or the given default (models the `Children[0]` access of
line 82; the source raises `IndexError` when there is no child, a case the
pipeline never reaches because loading wraps the file root in a container
with exactly one child). -/
def headD (d : Joint K) : JointList K → Joint K
  | .nil => d
  | .cons j _ => j

end JointList

mutual
/-- Number of joints in the subtree (the length of its flattened layout). -/
def Joint.size {K : Type} : Joint K → Nat
  | .mk _ _ _ cs => 1 + cs.sizeList
/-- Total number of joints in the subtrees of a child list. -/
def JointList.sizeList {K : Type} : JointList K → Nat
  | .nil => 0
  | .cons j tl => j.size + tl.sizeList
end

mutual
/-- Depth-first flattening (models `Joint.layout()`: the joint followed by
its children's layouts; `layout()[i][0]` of the script is entry `i`). -/
def Joint.layout {K : Type} : Joint K → List (Joint K)
  | .mk n r k cs => .mk n r k cs :: cs.layoutList
/-- Concatenated layouts of a child list. -/
def JointList.layoutList {K : Type} : JointList K → List (Joint K)
  | .nil => []
  | .cons j tl => j.layout ++ tl.layoutList
end

mutual
/-- Structure-respecting boolean equality of joints. -/
def Joint.beq {K : Type} [DecidableEq K] : Joint K → Joint K → Bool
  | .mk n r k cs, .mk n2 r2 k2 cs2 => n == n2 && r == r2 && k == k2 && cs.beqList cs2
/-- Boolean equality of child lists. -/
def JointList.beqList {K : Type} [DecidableEq K] : JointList K → JointList K → Bool
  | .nil, .nil => true
  | .cons j tl, .cons j2 tl2 => j.beq j2 && tl.beqList tl2
  | _, _ => false
end

mutual
theorem Joint.beq_iff {K : Type} [DecidableEq K] :
    ∀ a b : Joint K, a.beq b = true ↔ a = b
  | .mk n r k cs, .mk n2 r2 k2 cs2 => by
    simp only [Joint.beq, Bool.and_eq_true, beq_iff_eq, Joint.mk.injEq,
      JointList.beqList_iff cs cs2]
    tauto
theorem JointList.beqList_iff {K : Type} [DecidableEq K] :
    ∀ a b : JointList K, a.beqList b = true ↔ a = b
  | .nil, .nil => by simp [JointList.beqList]
  | .nil, .cons _ _ => by simp [JointList.beqList]
  | .cons _ _, .nil => by simp [JointList.beqList]
  | .cons j tl, .cons j2 tl2 => by
    simp only [JointList.beqList, Bool.and_eq_true, JointList.cons.injEq,
      Joint.beq_iff j j2, JointList.beqList_iff tl tl2]
end

instance {K : Type} [DecidableEq K] : DecidableEq (Joint K) :=
  fun a b => decidable_of_iff _ (Joint.beq_iff a b)

instance {K : Type} [DecidableEq K] : DecidableEq (JointList K) :=
  fun a b => decidable_of_iff _ (JointList.beqList_iff a b)

/-- The per-layout-index rest rotation the T-pose block assigns
(`fix_bind_pose.py` lines 36-60, one row per source line; index 3 is
`setEuler((0,+90,0)).roll(-90)`, a roll about the joint's local Y axis
after the Euler assignment).  Indices outside the table keep their
rotation; the source would raise `IndexError` for a layout shorter than
22 entries, a case no claim exercises. -/
def tPoseRot {K : Type} [Field K] (i : ℕ) (r : Mat3 K) : Mat3 K :=
  match i with
  | 1 => eulerXYZ 0 90 0                           -- Hips
  | 2 => eulerXYZ 0 0 0                            -- Spine
  | 3 => eulerXYZ 0 90 0 * rotY (-90)              -- Chest
  | 4 => eulerXYZ 0 0 0                            -- Neck
  | 5 => eulerXYZ 0 0 0                            -- Head
  | 6 => eulerXYZ 0 0 (-90)                        -- Shoulder_L
  | 7 => eulerXYZ 0 0 0                            -- UpperArm_L
  | 8 => eulerXYZ 0 0 0                            -- LowerArm_L
  | 9 => eulerXYZ 0 0 0                            -- Hand_L
  | 10 => eulerXYZ 0 0 90                          -- Shoulder_R
  | 11 => eulerXYZ 0 0 0                           -- UpperArm_R
  | 12 => eulerXYZ 0 0 0                           -- LowerArm_R
  | 13 => eulerXYZ 0 0 0                           -- Hand_R
  | 14 => eulerXYZ 0 0 180                         -- UpperLeg_L
  | 15 => eulerXYZ 0 0 0                           -- LowerLeg_L
  | 16 => eulerXYZ 0 0 0                           -- Foot_L
  | 17 => eulerXYZ 0 0 0                           -- Toes_L
  | 18 => eulerXYZ 0 0 180                         -- UpperLeg_R
  | 19 => eulerXYZ 0 0 0                           -- LowerLeg_R
  | 20 => eulerXYZ 0 0 0                           -- Foot_R
  | 21 => eulerXYZ 0 0 0                           -- Toes_R
  | _ => r

mutual
/-- The T-pose block (lines 35-61): walk the hierarchy in layout order
and assign each joint's rest rotation from the table; positions, scales,
keyframes and structure are untouched (`writeRestPose` keeps them). -/
def Joint.setTPoseGo {K : Type} [Field K] (i : ℕ) : Joint K → Joint K
  | .mk n rest kfs cs =>
    .mk n { rest with rotation := tPoseRot i rest.rotation } kfs (cs.setTPoseGoList (i + 1))
/-- The T-pose walk over a child list, threading the layout counter. -/
def JointList.setTPoseGoList {K : Type} [Field K] (i : ℕ) : JointList K → JointList K
  | .nil => .nil
  | .cons j tl => .cons (j.setTPoseGo i) (tl.setTPoseGoList (i + j.size))
end

/-- Lines 35-61 applied to the loaded hierarchy (layout index 0 is the
hierarchy root). -/
def Joint.setTPose {K : Type} [Field K] (j : Joint K) : Joint K := j.setTPoseGo 0

/-- The roll factor a joint at layout index `i` receives in one frame
iteration (lines 68-73): rolls multiply the rotation on the right by a
rotation about the local Y axis; `flag` is set for joints inside the
subtree of index 10 (Shoulder_R) or 18 (UpperLeg_R), which the source
rolls with `recursive=True`. -/
def rollF {K : Type} [Field K] (i : ℕ) (flag : Bool) : Mat3 K :=
  (if i = 2 ∨ i = 3 ∨ i = 4 ∨ i = 5 then rotY (-90) else 1) *
    (if i = 10 ∨ i = 18 then rotY 180 else 1) *
      (if flag then rotY 180 else 1)

/-- The quaternion post-multiplication a joint at layout index `i`
receives in one frame iteration (lines 75-79): `Rotation *=
glm.angleAxis(radians(-90), axis)` with axis X for the Head and axis Z
for Hand_L, Hand_R, Toes_L, Toes_R. -/
def mulF {K : Type} [Field K] (i : ℕ) : Mat3 K :=
  if i = 5 then rotX (-90)
  else if i = 9 ∨ i = 13 ∨ i = 17 ∨ i = 21 then rotZ (-90)
  else 1

mutual
/-- One frame iteration of the correction loop (lines 66-80) for the
subtree at layout index `i`: `loadPose(frame)` / mutate / `writePose(frame)`
collapses to updating keyframe `f` of each joint by the roll and
post-multiplication factors of its layout index.  `List.set` is a no-op
past the end of the keyframe list (a joint without that frame stores
nothing). -/
def Joint.correctFrameGo {K : Type} [Field K] (f : ℕ) (flag : Bool) (i : ℕ) :
    Joint K → Joint K
  | .mk n rest kfs cs =>
    let t := kfs.getD f rest
    let kfs2 := kfs.set f { t with rotation := t.rotation * rollF i flag * mulF i }
    .mk n rest kfs2 (cs.correctFrameGoList f (flag || i == 10 || i == 18) (i + 1))
/-- The frame iteration over a child list, threading the layout counter. -/
def JointList.correctFrameGoList {K : Type} [Field K] (f : ℕ) (flag : Bool) (i : ℕ) :
    JointList K → JointList K
  | .nil => .nil
  | .cons j tl => .cons (j.correctFrameGo f flag i) (tl.correctFrameGoList f flag (i + j.size))
end

/-- One full frame iteration starting at the hierarchy root. -/
def Joint.correctFrame {K : Type} [Field K] (f : ℕ) (j : Joint K) : Joint K :=
  j.correctFrameGo f false 0

mutual
/-- Largest keyframe count in the subtree. -/
def Joint.maxKf {K : Type} : Joint K → ℕ
  | .mk _ _ kfs cs => max kfs.length cs.maxKfList
/-- Largest keyframe count over a child list. -/
def JointList.maxKfList {K : Type} : JointList K → ℕ
  | .nil => 0
  | .cons j tl => max j.maxKf tl.maxKfList
end

/-- Models `getKeyframeRange()`: the Bandai files animate frames
`0 .. N-1`; the model reports the half-open pair `(0, N)` that the script
splats into Python's `range`. -/
def Joint.getKeyframeRange {K : Type} (j : Joint K) : ℕ × ℕ := (0, j.maxKf)

/-- The keyframe-correction loop (lines 66-80): `for frame in
range(*root.getKeyframeRange())`, one `correctFrame` per visited frame. -/
def Joint.frameLoop {K : Type} [Field K] (j : Joint K) : Joint K :=
  (List.range' j.getKeyframeRange.1 (j.getKeyframeRange.2 - j.getKeyframeRange.1)).foldl
    (fun t f => t.correctFrame f) j

/-- Indexed map by plain structural recursion (the core `List.mapIdx`
builds arrays, which kernel reduction handles poorly). -/
def mapWithIndex {A B : Type} (f : ℕ → A → B) : ℕ → List A → List B
  | _, [] => []
  | i, a :: tl => f i a :: mapWithIndex f (i + 1) tl

mutual
/-- Lines 8-16, `remove_motion`: for every keyframe of the joint, set
its world position to the joint's rest-pose world position, then recurse
into the children.  `restCtx` is the composed rest-pose transform of the
ancestors (`RestPose.PositionWorld` reads through it) and `ctxs f` the
composed frame-`f` pose transform of the ancestors, already updated by
the parent's own pass (the source mutates parents before children).  The
source's progress print has no observable effect and is dropped. -/
def Joint.remove_motion {K : Type} [Field K] (restCtx : Affine K) (ctxs : ℕ → Affine K) :
    Joint K → Joint K
  | .mk n rest kfs cs =>
    let restW := restCtx.apply rest.position
    let kfs2 := mapWithIndex (fun i t => t.setPositionWorld (ctxs i) restW) 0 kfs
    .mk n rest kfs2
      (cs.remove_motionList (restCtx.comp rest.toAffine)
        (fun i => (ctxs i).comp ((kfs2.getD i rest).toAffine)))
/-- The walk of `remove_motion` over a child list (siblings share their
parent's contexts). -/
def JointList.remove_motionList {K : Type} [Field K] (restCtx : Affine K)
    (ctxs : ℕ → Affine K) : JointList K → JointList K
  | .nil => .nil
  | .cons j tl => .cons (j.remove_motion restCtx ctxs) (tl.remove_motionList restCtx ctxs)
end

/-- A `.bvh` file as the model stores it: the file's root joint and the
frame time written with it. -/
structure BvhFile (K : Type) where
  root : Joint K
  frameTime : ℚ
deriving DecidableEq

/-- The default joint (placeholder for the impossible empty-children
access of line 82). -/
def Joint.defaultJoint {K : Type} [Field K] : Joint K :=
  .mk "" Transform.identity [] .nil

/-- Models loading a file (`readAsBvh` + `convertBvhToHierarchy` +
`loadRestPose(recursive=True)`): the file's root joint is presented
wrapped in a synthetic container root with identity transform and no
keyframes - the node the script addresses as `layout[0]` and drops with
`clearParent()`. -/
def readAsBvhRoot {K : Type} [Field K] (file : BvhFile K) : Joint K :=
  .mk "root" Transform.identity [] (.cons file.root .nil)

/-- Lines 21-22: `bvh.Root.Children[0].Offset.x = 0` and `... .z = 0`.
The y component and every other joint's offset are untouched.  (On an
empty child list the source raises `IndexError`; the model leaves the
joint unchanged, and no claim reaches that case because the container
root always has exactly one child.) -/
def zeroFirstChildOffset {K : Type} [Field K] : Joint K → Joint K
  | .mk n r k (.cons (.mk cn cr ck ccs) tl) =>
    .mk n r k (.cons (.mk cn { cr with position := { cr.position with x := 0, z := 0 } } ck ccs) tl)
  | .mk n r k .nil => .mk n r k .nil

/-- Lines 18-23, the script's own `readAsHierarchy`: read the file, zero
the x and z offset of the first child of the BVH root, convert. -/
def readAsHierarchy {K : Type} [Field K] (file : BvhFile K) : Joint K :=
  zeroFirstChildOffset (readAsBvhRoot file)

/-- Models `bvhio.writeHierarchy(path, root, frameTime)`: the given joint
becomes the written file's root, with the given frame time. -/
def writeHierarchy {K : Type} (root : Joint K) (frameTime : ℚ) : BvhFile K :=
  ⟨root, frameTime⟩

/-- Lines 93-94: `for child in root.Children: remove_motion(child)`.
Each child's ancestor chain is the root alone; after
`loadRestPose(recursive=True)` the root's pose equals its rest pose and
it carries no keyframes, so both contexts are its rest transform. -/
def Joint.removeChildrenMotion {K : Type} [Field K] : Joint K → Joint K
  | .mk n rest kfs cs =>
    .mk n rest kfs (cs.remove_motionList rest.toAffine (fun _ => rest.toAffine))

/-- Lines 96-99: `layout[0][0].setEuler((0, 90, 0))` inside the
`loadRestPose` / `writeRestPose(keep=['position', 'rotation', 'scale'])`
sandwich - the hierarchy root's rest rotation becomes the Euler constant,
everything else is kept. -/
def Joint.setRootEulerY90 {K : Type} [Field K] : Joint K → Joint K
  | .mk n rest kfs cs => .mk n { rest with rotation := eulerXYZ 0 90 0 } kfs cs

/-- Pass 1 of `modifyFile` (lines 28-84): load with `readAsHierarchy`,
set the T-pose, run the keyframe-correction loop, drop the container root
(line 82) and write the result with frame time 1/30. -/
def pass1 {K : Type} [Field K] (src : BvhFile K) : BvhFile K :=
  let root := readAsHierarchy src
  let root2 := root.setTPose
  let root3 := root2.frameLoop
  let root4 := root3.children.headD Joint.defaultJoint
  writeHierarchy root4 (1 / 30)

/-- Pass 2 of `modifyFile` (lines 90-102): reload the destination file,
remove the motion of every child of the root, set the root's rest
rotation to `(0, 90, 0)` and write back with frame time 1/30. -/
def pass2 {K : Type} [Field K] (dst : BvhFile K) : BvhFile K :=
  let root := readAsBvhRoot dst
  let root2 := root.removeChildrenMotion
  let root3 := root2.setRootEulerY90
  writeHierarchy root3 (1 / 30)

/-- Lines 28-102, `modifyFile`: pass 1 writes the destination file, pass
2 rereads and rewrites it.  The value is (intermediate file, final file);
the final file is what remains on disk. -/
def modifyFile {K : Type} [Field K] (src : BvhFile K) : BvhFile K × BvhFile K :=
  let mid := pass1 src
  (mid, pass2 mid)

/-- The file system as the driver sees it: `os.path.exists` and
`os.listdir`. -/
structure FileSys where
  pathExists : String → Bool
  listdir : String → List String

/-- What one run of the driver produces: the messages printed at driver
level, the (source, destination) path pairs handed to `modifyFile` in
order, and the process exit code. -/
structure RunOutcome where
  messages : List String
  processed : List (String × String)
  exitCode : ℕ

/-- Models `os.path.join` for the POSIX paths the script is used with. -/
def joinPath (a b : String) : String := a ++ "/" ++ b

/-- The driver (lines 105-124): check both directories exist (a bare
`exit()` raises `SystemExit(None)`, exit code 0), list the source
directory, keep the names ending in `.bvh`, and process each file to the
same name under the destination directory. -/
def runMain (sourceDir destinationDir : String) (fs : FileSys) : RunOutcome :=
  if fs.pathExists sourceDir = false then
    { messages := ["Source path does not exist"], processed := [], exitCode := 0 }
  else if fs.pathExists destinationDir = false then
    { messages := ["Destination path does not exist"], processed := [], exitCode := 0 }
  else
    let files := (fs.listdir sourceDir).filter (fun f => f.endsWith ".bvh")
    { messages := ["Found " ++ toString files.length ++ " bvh files at given source path:",
        "Done."],
      processed := files.map (fun f => (joinPath sourceDir f, joinPath destinationDir f)),
      exitCode := 0 }

/-- One joint of the fixed Bandai-Namco input topology: layout index `i`
determines rest rotation `rs i`, rest position `ps i`, unit scale and
`nf` keyframes `kf i 0 .. kf i (nf-1)`. -/
def bandaiJoint {K : Type} [Field K] (rs : ℕ → Mat3 K) (ps : ℕ → Vec3 K)
    (kf : ℕ → ℕ → Transform K) (nf : ℕ) (i : ℕ) (nm : String) (cs : JointList K) : Joint K :=
  .mk nm ⟨ps i, rs i, ⟨1, 1, 1⟩⟩ ((List.range nf).map (kf i)) cs

/-- The fixed 21-joint Bandai-Namco skeleton as stored in a source file
(the file root is Hips; loading wraps it in the container root, after
which each joint's layout index is the number used here, matching the
comments of lines 36-60). -/
def bandaiSkeleton {K : Type} [Field K] (rs : ℕ → Mat3 K) (ps : ℕ → Vec3 K)
    (kf : ℕ → ℕ → Transform K) (nf : ℕ) : Joint K :=
  bandaiJoint rs ps kf nf 1 "Hips" (.cons
    (bandaiJoint rs ps kf nf 2 "Spine" (.cons
      (bandaiJoint rs ps kf nf 3 "Chest" (.cons
        (bandaiJoint rs ps kf nf 4 "Neck" (.cons
          (bandaiJoint rs ps kf nf 5 "Head" .nil) .nil)) (.cons
        (bandaiJoint rs ps kf nf 6 "Shoulder_L" (.cons
          (bandaiJoint rs ps kf nf 7 "UpperArm_L" (.cons
            (bandaiJoint rs ps kf nf 8 "LowerArm_L" (.cons
              (bandaiJoint rs ps kf nf 9 "Hand_L" .nil) .nil)) .nil)) .nil)) (.cons
        (bandaiJoint rs ps kf nf 10 "Shoulder_R" (.cons
          (bandaiJoint rs ps kf nf 11 "UpperArm_R" (.cons
            (bandaiJoint rs ps kf nf 12 "LowerArm_R" (.cons
              (bandaiJoint rs ps kf nf 13 "Hand_R" .nil) .nil)) .nil)) .nil)) .nil)))) .nil)) (.cons
    (bandaiJoint rs ps kf nf 14 "UpperLeg_L" (.cons
      (bandaiJoint rs ps kf nf 15 "LowerLeg_L" (.cons
        (bandaiJoint rs ps kf nf 16 "Foot_L" (.cons
          (bandaiJoint rs ps kf nf 17 "Toes_L" .nil) .nil)) .nil)) .nil)) (.cons
    (bandaiJoint rs ps kf nf 18 "UpperLeg_R" (.cons
      (bandaiJoint rs ps kf nf 19 "LowerLeg_R" (.cons
        (bandaiJoint rs ps kf nf 20 "Foot_R" (.cons
          (bandaiJoint rs ps kf nf 21 "Toes_R" .nil) .nil)) .nil)) .nil)) .nil)))

/-- The concrete scalar field for witness evaluation: the prime field
with 29 elements, realized as `Fin 29` with a tabulated inverse so that
every operation evaluates by kernel reduction.  Arithmetic mod 29 is
exact on the small integers the concrete examples use. -/
abbrev KW : Type := Fin 29

/-- An element of the witness field from a natural number. -/
def fw (n : ℕ) : KW := ⟨n % 29, Nat.mod_lt _ (by omega)⟩

/-- The inverse table mod 29 on representatives. -/
def invKWNat : ℕ → ℕ
  | 1 => 1 | 2 => 15 | 3 => 10 | 4 => 22 | 5 => 6 | 6 => 5
  | 7 => 25 | 8 => 11 | 9 => 13 | 10 => 3 | 11 => 8 | 12 => 17 | 13 => 9
  | 14 => 27 | 15 => 2 | 16 => 20 | 17 => 12 | 18 => 21 | 19 => 26
  | 20 => 16 | 21 => 18 | 22 => 4 | 23 => 24 | 24 => 23 | 25 => 7
  | 26 => 19 | 27 => 14 | 28 => 28 | _ => 0

/-- The multiplicative inverse in the 29-element field, tabulated. -/
def invKW (x : KW) : KW := fw (invKWNat x.val)

instance : Field KW :=
  { (inferInstance : CommRing (Fin 29)) with
    inv := invKW
    div := fun a b => a * invKW b
    exists_pair_ne := ⟨0, 1, by decide⟩
    mul_inv_cancel := by decide
    inv_zero := by decide
    nnqsmul := _
    qsmul := _ }

/-- Concrete distinct rest rotations (determinant `i + 2`, non-zero). -/
def rsW (i : ℕ) : Mat3 KW := ⟨fw (i + 2), 0, 0, 0, 1, 0, 0, 0, 1⟩

/-- Concrete rest positions. -/
def psW (i : ℕ) : Vec3 KW := ⟨fw (i + 1), fw (i + 2), fw (i + 3)⟩

/-- Concrete keyframe transforms (determinant `f + 2`, non-zero). -/
def kfW (i f : ℕ) : Transform KW :=
  ⟨⟨fw i, fw f, 1⟩, ⟨fw (f + 2), 0, 0, 0, 1, 0, 0, 0, 1⟩, ⟨1, 1, 1⟩⟩

/-- A concrete two-frame Bandai skeleton. -/
def bandaiW : Joint KW := bandaiSkeleton rsW psW kfW 2

/-- A concrete source file over that skeleton. -/
def bandaiFileW : BvhFile KW := ⟨bandaiW, 1 / 30⟩

mutual
/-- The pass-2 postcondition: every keyframe's world position (the
frame-`f` ancestor context applied to the stored local position) equals
the joint's rest-pose world position (the rest ancestor context applied
to the rest local position), for the joint and, with the properly
composed contexts, all of its descendants. -/
def Joint.atRest {K : Type} [Field K] (restCtx : Affine K) (ctxs : ℕ → Affine K) :
    Joint K → Prop
  | .mk _ rest kfs cs =>
    (∀ i, i < kfs.length →
      (ctxs i).apply (kfs.getD i rest).position = restCtx.apply rest.position)
      ∧ cs.atRestList (restCtx.comp rest.toAffine)
          (fun i => (ctxs i).comp ((kfs.getD i rest).toAffine))
/-- The predicate `Joint.atRest` over a child list. -/
def JointList.atRestList {K : Type} [Field K] (restCtx : Affine K) (ctxs : ℕ → Affine K) :
    JointList K → Prop
  | .nil => True
  | .cons j tl => j.atRest restCtx ctxs ∧ tl.atRestList restCtx ctxs
end

mutual
/-- Non-degeneracy of the stored transforms: every rest-pose and keyframe
local matrix in the subtree is invertible (true of any real pose; the
world-position setter divides by these determinants). -/
def Joint.nondegB {K : Type} [Field K] [DecidableEq K] : Joint K → Bool
  | .mk _ rest kfs cs =>
    (rest.matrix.det != 0) && kfs.all (fun t => t.matrix.det != 0) && cs.nondegListB
/-- The predicate `Joint.nondegB` over a child list. -/
def JointList.nondegListB {K : Type} [Field K] [DecidableEq K] : JointList K → Bool
  | .nil => true
  | .cons j tl => j.nondegB && tl.nondegListB
end

theorem mapWithIndex_length {A B : Type} (f : ℕ → A → B) :
    ∀ (s : ℕ) (l : List A), (mapWithIndex f s l).length = l.length
  | _, [] => rfl
  | s, a :: tl => by simp [mapWithIndex, mapWithIndex_length f (s + 1) tl]

theorem mapWithIndex_append {A B : Type} (f : ℕ → A → B) :
    ∀ (s : ℕ) (xs ys : List A),
      mapWithIndex f s (xs ++ ys) = mapWithIndex f s xs ++ mapWithIndex f (s + xs.length) ys
  | s, [], ys => by simp [mapWithIndex]
  | s, a :: tl, ys => by
    simp only [List.cons_append, mapWithIndex, List.length_cons, List.append_eq]
    rw [mapWithIndex_append f (s + 1) tl ys]
    have h2 : s + 1 + tl.length = s + (tl.length + 1) := by omega
    rw [h2]

theorem mapWithIndex_getD {A B : Type} (f : ℕ → A → B) :
    ∀ (s : ℕ) (l : List A) (i : ℕ) (d : B) (d2 : A), i < l.length →
      (mapWithIndex f s l).getD i d = f (s + i) (l.getD i d2)
  | s, [], i, d, d2 => by intro h; simp at h
  | s, a :: tl, 0, d, d2 => by intro h; simp [mapWithIndex]
  | s, a :: tl, i + 1, d, d2 => by
    intro h
    simp only [List.length_cons, Nat.add_lt_add_iff_right] at h
    simp only [mapWithIndex, List.getD_cons_succ]
    rw [mapWithIndex_getD f (s + 1) tl i d d2 h]
    congr 1
    omega

theorem mapWithIndex_map_eq {A B : Type} (f : ℕ → A → A) (g : A → B)
    (h : ∀ i a, g (f i a) = g a) :
    ∀ (s : ℕ) (l : List A), (mapWithIndex f s l).map g = l.map g
  | _, [] => rfl
  | s, a :: tl => by
    simp [mapWithIndex, h, mapWithIndex_map_eq f g h (s + 1) tl]

mutual
theorem Joint.layout_length {K : Type} : ∀ j : Joint K, j.layout.length = j.size
  | .mk n r k cs => by
    simp [Joint.layout, Joint.size, JointList.layoutList_length cs, Nat.add_comm]
theorem JointList.layoutList_length {K : Type} :
    ∀ cs : JointList K, cs.layoutList.length = cs.sizeList
  | .nil => rfl
  | .cons j tl => by
    simp [JointList.layoutList, JointList.sizeList, Joint.layout_length j,
      JointList.layoutList_length tl]
end

mutual
theorem Joint.setTPoseGo_rotations {K : Type} [Field K] :
    ∀ (j : Joint K) (i : ℕ),
      (j.setTPoseGo i).layout.map (fun n => n.restPose.rotation)
        = mapWithIndex (fun k r => tPoseRot k r) i (j.layout.map (fun n => n.restPose.rotation))
  | .mk n r k cs, i => by
    simp only [Joint.setTPoseGo, Joint.layout, List.map_cons, mapWithIndex]
    exact congrArg _ (JointList.setTPoseGoList_rotations cs (i + 1))
theorem JointList.setTPoseGoList_rotations {K : Type} [Field K] :
    ∀ (cs : JointList K) (i : ℕ),
      (cs.setTPoseGoList i).layoutList.map (fun n => n.restPose.rotation)
        = mapWithIndex (fun k r => tPoseRot k r) i (cs.layoutList.map (fun n => n.restPose.rotation))
  | .nil, i => rfl
  | .cons j tl, i => by
    simp only [JointList.setTPoseGoList, JointList.layoutList, List.map_append]
    rw [Joint.setTPoseGo_rotations j i, JointList.setTPoseGoList_rotations tl (i + j.size),
      mapWithIndex_append]
    simp [List.length_map, Joint.layout_length]
end

mutual
theorem Joint.setTPoseGo_preserved {K : Type} [Field K] :
    ∀ (j : Joint K) (i : ℕ),
      (j.setTPoseGo i).layout.map
          (fun n => (n.name, n.restPose.position, n.restPose.scale, n.keyframes))
        = j.layout.map (fun n => (n.name, n.restPose.position, n.restPose.scale, n.keyframes))
  | .mk n r k cs, i => by
    simp only [Joint.setTPoseGo, Joint.layout, List.map_cons]
    exact congrArg _ (JointList.setTPoseGoList_preserved cs (i + 1))
theorem JointList.setTPoseGoList_preserved {K : Type} [Field K] :
    ∀ (cs : JointList K) (i : ℕ),
      (cs.setTPoseGoList i).layoutList.map
          (fun n => (n.name, n.restPose.position, n.restPose.scale, n.keyframes))
        = cs.layoutList.map (fun n => (n.name, n.restPose.position, n.restPose.scale, n.keyframes))
  | .nil, i => rfl
  | .cons j tl, i => by
    simp only [JointList.setTPoseGoList, JointList.layoutList, List.map_append]
    rw [Joint.setTPoseGo_preserved j i, JointList.setTPoseGoList_preserved tl (i + j.size)]
end

mutual
theorem Joint.remove_motion_frame {K : Type} [Field K] :
    ∀ (j : Joint K) (restCtx : Affine K) (ctxs : ℕ → Affine K),
      (j.remove_motion restCtx ctxs).layout.map
          (fun n => (n.name, n.restPose, n.keyframes.map (fun t => (t.rotation, t.scale)),
            n.keyframes.length))
        = j.layout.map
            (fun n => (n.name, n.restPose, n.keyframes.map (fun t => (t.rotation, t.scale)),
              n.keyframes.length))
  | .mk n rest kfs cs, restCtx, ctxs => by
    simp only [Joint.remove_motion, Joint.layout, List.map_cons]
    refine congrArg₂ List.cons ?_ (JointList.remove_motionList_frame cs _ _)
    show (n, rest,
        List.map (fun t => (t.rotation, t.scale))
          (mapWithIndex (fun i t => Transform.setPositionWorld (ctxs i) (restCtx.apply rest.position) t) 0 kfs),
        (mapWithIndex (fun i t => Transform.setPositionWorld (ctxs i) (restCtx.apply rest.position) t) 0 kfs).length)
      = (n, rest, List.map (fun t => (t.rotation, t.scale)) kfs, kfs.length)
    rw [mapWithIndex_map_eq
        (fun i t => Transform.setPositionWorld (ctxs i) (restCtx.apply rest.position) t)
        (fun t => (t.rotation, t.scale)) (fun i t => rfl) 0 kfs,
      mapWithIndex_length]
theorem JointList.remove_motionList_frame {K : Type} [Field K] :
    ∀ (cs : JointList K) (restCtx : Affine K) (ctxs : ℕ → Affine K),
      (cs.remove_motionList restCtx ctxs).layoutList.map
          (fun n => (n.name, n.restPose, n.keyframes.map (fun t => (t.rotation, t.scale)),
            n.keyframes.length))
        = cs.layoutList.map
            (fun n => (n.name, n.restPose, n.keyframes.map (fun t => (t.rotation, t.scale)),
              n.keyframes.length))
  | .nil, restCtx, ctxs => rfl
  | .cons j tl, restCtx, ctxs => by
    simp only [JointList.remove_motionList, JointList.layoutList, List.map_append]
    rw [Joint.remove_motion_frame j, JointList.remove_motionList_frame tl]
end

theorem Transform.setPositionWorld_matrix {K : Type} [Field K] (ctx : Affine K) (w : Vec3 K)
    (t : Transform K) : (t.setPositionWorld ctx w).matrix = t.matrix := rfl

theorem all_getD {A : Type} (p : A → Bool) :
    ∀ (l : List A), l.all p = true → ∀ (i : ℕ) (d : A), p d = true → p (l.getD i d) = true
  | [], _, i, d, hd => by simpa [List.getD] using hd
  | a :: tl, h, 0, d, hd => by
    simp only [List.all_cons, Bool.and_eq_true] at h
    simpa [List.getD_cons_zero] using h.1
  | a :: tl, h, i + 1, d, hd => by
    simp only [List.all_cons, Bool.and_eq_true] at h
    rw [List.getD_cons_succ]
    exact all_getD p tl h.2 i d hd

theorem comp_M_det {K : Type} [Field K] (a b : Affine K) : (a.comp b).M.det = a.M.det * b.M.det := by
  have h : (a.comp b).M = a.M * b.M := rfl
  rw [h, Mat3.det_mul]

mutual
/-- After `remove_motion`, the joint and every descendant satisfy the
world-position postcondition, provided every stored matrix and every
ancestor context matrix is invertible. -/
theorem Joint.remove_motion_atRest {K : Type} [Field K] [DecidableEq K] :
    ∀ (j : Joint K) (restCtx : Affine K) (ctxs : ℕ → Affine K),
      j.nondegB = true → (∀ i, (ctxs i).M.det ≠ 0) →
      (j.remove_motion restCtx ctxs).atRest restCtx ctxs
  | .mk n rest kfs cs, restCtx, ctxs, hnd, hctx => by
    simp only [Joint.nondegB, Bool.and_eq_true, bne_iff_ne] at hnd
    obtain ⟨⟨hrest, hkfs⟩, hcs⟩ := hnd
    simp only [Joint.remove_motion, Joint.atRest]
    have hgetD : ∀ i : ℕ,
        ((mapWithIndex
            (fun i t => Transform.setPositionWorld (ctxs i) (restCtx.apply rest.position) t)
            0 kfs).getD i rest).matrix.det ≠ 0 := by
      intro i
      by_cases hi : i < kfs.length
      · rw [mapWithIndex_getD _ 0 kfs i rest rest hi, Nat.zero_add,
          Transform.setPositionWorld_matrix]
        have := all_getD (fun t => t.matrix.det != 0) kfs hkfs i rest (by simpa using hrest)
        simpa using this
      · rw [List.getD_eq_default]
        · exact hrest
        · rw [mapWithIndex_length]; omega
    constructor
    · intro i hi
      rw [mapWithIndex_length] at hi
      rw [mapWithIndex_getD _ 0 kfs i rest rest hi, Nat.zero_add]
      exact Transform.apply_setPositionWorld (ctxs i) (hctx i) _ _
    · refine JointList.remove_motionList_atRestList cs _ _ hcs ?_
      intro i
      rw [comp_M_det]
      exact mul_ne_zero (hctx i) (hgetD i)
theorem JointList.remove_motionList_atRestList {K : Type} [Field K] [DecidableEq K] :
    ∀ (cs : JointList K) (restCtx : Affine K) (ctxs : ℕ → Affine K),
      cs.nondegListB = true → (∀ i, (ctxs i).M.det ≠ 0) →
      (cs.remove_motionList restCtx ctxs).atRestList restCtx ctxs
  | .nil, restCtx, ctxs, _, _ => trivial
  | .cons j tl, restCtx, ctxs, hnd, hctx => by
    simp only [JointList.nondegListB, Bool.and_eq_true] at hnd
    exact ⟨Joint.remove_motion_atRest j restCtx ctxs hnd.1 hctx,
      JointList.remove_motionList_atRestList tl restCtx ctxs hnd.2 hctx⟩
end

mutual
/-- The predicate `atRest` transfers along a change of the outermost
ancestor context:
if the pose and rest chains start with the same invertible map `B`, they
may start with any other common map `A` instead (used for the root
rotation written after `remove_motion` in pass 2). -/
theorem Joint.atRest_outer {K : Type} [Field K] :
    ∀ (c : Joint K) (R : Affine K) (Cs : ℕ → Affine K) (A B : Affine K), B.M.det ≠ 0 →
      c.atRest (B.comp R) (fun i => B.comp (Cs i)) → c.atRest (A.comp R) (fun i => A.comp (Cs i))
  | .mk n rest kfs cs, R, Cs, A, B, hB, h => by
    simp only [Joint.atRest] at h ⊢
    obtain ⟨h1, h2⟩ := h
    constructor
    · intro i hi
      have e1 := h1 i hi
      rw [Affine.apply_comp, Affine.apply_comp] at e1
      rw [Affine.apply_comp, Affine.apply_comp, Affine.apply_injective B hB e1]
    · have hrw1 : (fun i => (B.comp (Cs i)).comp ((kfs.getD i rest).toAffine))
          = fun i => B.comp ((Cs i).comp ((kfs.getD i rest).toAffine)) :=
        funext fun i => Affine.comp_assoc B (Cs i) ((kfs.getD i rest).toAffine)
      have hrw2 : (fun i => (A.comp (Cs i)).comp ((kfs.getD i rest).toAffine))
          = fun i => A.comp ((Cs i).comp ((kfs.getD i rest).toAffine)) :=
        funext fun i => Affine.comp_assoc A (Cs i) ((kfs.getD i rest).toAffine)
      rw [hrw1, Affine.comp_assoc] at h2
      rw [hrw2, Affine.comp_assoc]
      exact JointList.atRestList_outer cs _ _ A B hB h2
theorem JointList.atRestList_outer {K : Type} [Field K] :
    ∀ (cs : JointList K) (R : Affine K) (Cs : ℕ → Affine K) (A B : Affine K), B.M.det ≠ 0 →
      cs.atRestList (B.comp R) (fun i => B.comp (Cs i))
      → cs.atRestList (A.comp R) (fun i => A.comp (Cs i))
  | .nil, _, _, _, _, _, _ => trivial
  | .cons j tl, R, Cs, A, B, hB, h =>
    ⟨Joint.atRest_outer j R Cs A B hB h.1, JointList.atRestList_outer tl R Cs A B hB h.2⟩
end

theorem Affine.comp_id {K : Type} [Field K] (a : Affine K) : a.comp Affine.id = a := by
  cases a with
  | mk M p =>
    cases M; cases p
    simp only [comp, apply, Affine.id, Mat3.one_def, Vec3.zero_def, Mat3.mul_def, Mat3.mul,
      Mat3.mulVec, Vec3.add_def, Affine.mk.injEq, Mat3.mk.injEq, Vec3.mk.injEq]
    and_intros <;> ring

theorem Transform.identity_matrix_det {K : Type} [Field K] :
    (Transform.identity : Transform K).matrix.det = 1 := by
  simp only [Transform.identity, Transform.matrix, Transform.diagScale, Mat3.one_def,
    Mat3.mul_def, Mat3.mul, Mat3.det]
  ring

theorem identity_toAffine_det {K : Type} [Field K] :
    ((Transform.identity : Transform K).toAffine).M.det ≠ 0 := by
  have h : ((Transform.identity : Transform K).toAffine).M = (Transform.identity : Transform K).matrix := rfl
  rw [h, Transform.identity_matrix_det]
  exact one_ne_zero

/-- What pass 2 builds, spelled out: the reloaded container root with the
Euler constant as rest rotation, and the file root processed by
`remove_motion` under the container's (identity) contexts. -/
theorem pass2_root_eq {K : Type} [Field K] (dst : BvhFile K) :
    (pass2 dst).root = Joint.mk "root" { Transform.identity with rotation := eulerXYZ 0 90 0 } []
      (.cons (dst.root.remove_motion (Transform.identity : Transform K).toAffine
        (fun _ => (Transform.identity : Transform K).toAffine)) .nil) := rfl

/-- C2: after pass 2 of `modifyFile` completes, for every child of the
root and recursively for all of its descendants, every keyframe's world
position equals that joint's rest-pose world position (root-relative
translation motion has been removed).  Stated for any input whose stored
matrices are invertible (true of real pose data; the library's
world-position setter inverts the ancestor world matrix). -/
theorem C2_pass2_descendant_keyframes_at_rest {K : Type} [Field K] [DecidableEq K]
    (src : BvhFile K) (h : (pass1 src).root.nondegB = true) :
    (modifyFile src).2 = pass2 (pass1 src)
      ∧ ∀ c ∈ ((pass2 (pass1 src)).root.children).toList,
          c.atRest ((pass2 (pass1 src)).root.restPose.toAffine)
            (fun _ => (pass2 (pass1 src)).root.restPose.toAffine) := by
  refine ⟨rfl, ?_⟩
  intro c hc
  rw [pass2_root_eq (pass1 src)] at hc ⊢
  simp only [Joint.children, JointList.toList, List.mem_singleton] at hc
  subst hc
  simp only [Joint.restPose]
  have hBdet : ((Transform.identity : Transform K).toAffine).M.det ≠ 0 := identity_toAffine_det
  have h0 := Joint.remove_motion_atRest ((pass1 src).root)
    (Transform.identity : Transform K).toAffine
    (fun _ => (Transform.identity : Transform K).toAffine) h (fun _ => hBdet)
  have h1 : ((pass1 src).root.remove_motion (Transform.identity : Transform K).toAffine
      (fun _ => (Transform.identity : Transform K).toAffine)).atRest
        (((Transform.identity : Transform K).toAffine).comp Affine.id)
        (fun _ => ((Transform.identity : Transform K).toAffine).comp Affine.id) := by
    simpa only [Affine.comp_id] using h0
  have h2 := Joint.atRest_outer _ Affine.id (fun _ => Affine.id)
    (({ Transform.identity with rotation := eulerXYZ 0 90 0 } : Transform K).toAffine)
    ((Transform.identity : Transform K).toAffine) hBdet h1
  simpa only [Affine.comp_id] using h2

/-- C2 witness: the hypotheses of the theorem hold at the concrete
two-frame Bandai skeleton, and the conclusion follows by the theorem. -/
theorem C2_pass2_descendant_keyframes_at_rest_witness :
    (pass1 bandaiFileW).root.nondegB = true
      ∧ ((modifyFile bandaiFileW).2 = pass2 (pass1 bandaiFileW)
        ∧ ∀ c ∈ ((pass2 (pass1 bandaiFileW)).root.children).toList,
            c.atRest ((pass2 (pass1 bandaiFileW)).root.restPose.toAffine)
              (fun _ => (pass2 (pass1 bandaiFileW)).root.restPose.toAffine)) :=
  ⟨by decide, C2_pass2_descendant_keyframes_at_rest bandaiFileW (by decide)⟩

/-- C1 (amended): in pass 1, after loading the rest pose, the T-pose
block overwrites the rest rotation of each layout entry according to the
fixed table `tPoseRot` - the 21 joints at layout indices 1 through 21
receive the documented Euler constants (index 3 with the extra roll), all
other indices keep their rotation - while every joint's name, rest-pose
position, scale and keyframes are unchanged. -/
theorem C1_tpose_rest_rotations {K : Type} [Field K] (j : Joint K) :
    (Joint.setTPose j).layout.map (fun n => n.restPose.rotation)
        = mapWithIndex (fun i r => tPoseRot i r) 0 (j.layout.map (fun n => n.restPose.rotation))
      ∧ (Joint.setTPose j).layout.map
            (fun n => (n.name, n.restPose.position, n.restPose.scale, n.keyframes))
          = j.layout.map (fun n => (n.name, n.restPose.position, n.restPose.scale, n.keyframes)) :=
  ⟨Joint.setTPoseGo_rotations j 0, Joint.setTPoseGo_preserved j 0⟩

/-- C1 counterexample: on the fixed 22-entry Bandai layout (container
root plus 21 skeleton joints, distinct rest rotations), the T-pose block
overwrites the rest rotations of 21 layout entries, not 16. -/
theorem C1_counterexample :
    ((List.range (readAsHierarchy bandaiFileW).size).filter (fun i =>
        ((Joint.setTPose (readAsHierarchy bandaiFileW)).layout.getD i
            Joint.defaultJoint).restPose.rotation
          != ((readAsHierarchy bandaiFileW).layout.getD i
            Joint.defaultJoint).restPose.rotation)).length = 21
      ∧ ¬ (((List.range (readAsHierarchy bandaiFileW).size).filter (fun i =>
        ((Joint.setTPose (readAsHierarchy bandaiFileW)).layout.getD i
            Joint.defaultJoint).restPose.rotation
          != ((readAsHierarchy bandaiFileW).layout.getD i
            Joint.defaultJoint).restPose.rotation)).length = 16) := by
  decide

/-- C3 (amended): the keyframe-correction loop on the fixed Bandai
topology multiplies each joint's keyframe rotation at the visited frame
on the right by its roll factor (`rollF`: direct rolls at layout indices
2, 3, 4, 5, 10, 18 - six joints, not seven - with the recursive rolls of
10 and 18 reaching their descendants 11-13 and 19-21) and then by its
post-multiplication factor (`mulF`: -90 degrees about X for the Head,
about Z for Hands and Toes), leaving the other frames' keyframes
unchanged; the loop visits every frame of `range(*getKeyframeRange())`
(both frames of the two-frame skeletons here).  The first two conjuncts
are the single-iteration effect for frames 0 and 1 with arbitrary
transform data; the third runs the whole loop on the concrete two-frame
skeleton. -/
theorem C3_frame_corrections :
    (∀ (K : Type) [Field K] (rs : ℕ → Mat3 K) (ps : ℕ → Vec3 K)
      (kf : ℕ → ℕ → Transform K),
      (Joint.correctFrame 0
            ((readAsHierarchy ⟨bandaiSkeleton rs ps kf 2, 1 / 30⟩).setTPose)).layout.map
          (fun n => n.keyframes.map (fun t => t.rotation))
        = mapWithIndex (fun i rots => mapWithIndex (fun g r =>
            if g = 0 then r * rollF i (decide (i ∈ ([11, 12, 13, 19, 20, 21] : List ℕ))) * mulF i
            else r) 0 rots) 0
            (((readAsHierarchy ⟨bandaiSkeleton rs ps kf 2, 1 / 30⟩).setTPose).layout.map
              (fun n => n.keyframes.map (fun t => t.rotation))))
    ∧ (∀ (K : Type) [Field K] (rs : ℕ → Mat3 K) (ps : ℕ → Vec3 K)
      (kf : ℕ → ℕ → Transform K),
      (Joint.correctFrame 1
            ((readAsHierarchy ⟨bandaiSkeleton rs ps kf 2, 1 / 30⟩).setTPose)).layout.map
          (fun n => n.keyframes.map (fun t => t.rotation))
        = mapWithIndex (fun i rots => mapWithIndex (fun g r =>
            if g = 1 then r * rollF i (decide (i ∈ ([11, 12, 13, 19, 20, 21] : List ℕ))) * mulF i
            else r) 0 rots) 0
            (((readAsHierarchy ⟨bandaiSkeleton rs ps kf 2, 1 / 30⟩).setTPose).layout.map
              (fun n => n.keyframes.map (fun t => t.rotation))))
    ∧ ((readAsHierarchy bandaiFileW).setTPose.frameLoop).layout.map
          (fun n => n.keyframes.map (fun t => t.rotation))
        = mapWithIndex (fun i rots => rots.map
            (fun r => r * rollF i (decide (i ∈ ([11, 12, 13, 19, 20, 21] : List ℕ))) * mulF i)) 0
            (((readAsHierarchy bandaiFileW).setTPose).layout.map
              (fun n => n.keyframes.map (fun t => t.rotation))) := by
  refine ⟨?_, ?_, ?_⟩
  · intro K instK rs ps kf
    simp [readAsHierarchy, readAsBvhRoot, zeroFirstChildOffset, bandaiSkeleton,
      bandaiJoint, Joint.setTPose, Joint.setTPoseGo, JointList.setTPoseGoList,
      Joint.size, JointList.sizeList, Joint.layout, JointList.layoutList,
      Joint.keyframes, Joint.restPose, Joint.name, Joint.children, Transform.identity,
      Joint.correctFrame, Joint.correctFrameGo, JointList.correctFrameGoList,
      List.set, List.getD_cons_zero, List.getD_cons_succ, mapWithIndex]
  · intro K instK rs ps kf
    simp [readAsHierarchy, readAsBvhRoot, zeroFirstChildOffset, bandaiSkeleton,
      bandaiJoint, Joint.setTPose, Joint.setTPoseGo, JointList.setTPoseGoList,
      Joint.size, JointList.sizeList, Joint.layout, JointList.layoutList,
      Joint.keyframes, Joint.restPose, Joint.name, Joint.children, Transform.identity,
      Joint.correctFrame, Joint.correctFrameGo, JointList.correctFrameGoList,
      List.set, List.getD_cons_zero, List.getD_cons_succ, mapWithIndex]
  · decide

/-- C3 counterexample: the loop's direct axial roll corrections target
exactly 6 layout indices (2, 3, 4, 5 and the two recursive ones, 10 and
18), not 7. -/
theorem C3_counterexample :
    ((List.range 22).filter (fun i => (rollF i false : Mat3 KW) != 1)).length = 6
      ∧ ¬ (((List.range 22).filter (fun i => (rollF i false : Mat3 KW) != 1)).length = 7) := by
  decide

/-- C4: if either directory is missing, the driver prints the matching
message and stops with exit code 0 before touching any file (nothing is
handed to `modifyFile`). -/
theorem C4_missing_directory_short_circuits (src dst : String) (fs : FileSys)
    (h : fs.pathExists src = false ∨ fs.pathExists dst = false) :
    (runMain src dst fs).processed = [] ∧ (runMain src dst fs).exitCode = 0
      ∧ ((runMain src dst fs).messages = ["Source path does not exist"]
        ∨ (runMain src dst fs).messages = ["Destination path does not exist"]) := by
  rcases h with h | h
  · simp [runMain, h]
  · by_cases h1 : fs.pathExists src = false
    · simp [runMain, h1]
    · simp [runMain, h1, h]

/-- The file system of the C4 witness: no path exists. -/
def fsMissing : FileSys := ⟨fun _ => false, fun _ => []⟩

/-- C4 witness: concrete missing-directory run. -/
theorem C4_missing_directory_short_circuits_witness :
    (fsMissing.pathExists "mocap" = false ∨ fsMissing.pathExists "out" = false)
      ∧ ((runMain "mocap" "out" fsMissing).processed = []
        ∧ (runMain "mocap" "out" fsMissing).exitCode = 0
        ∧ ((runMain "mocap" "out" fsMissing).messages = ["Source path does not exist"]
          ∨ (runMain "mocap" "out" fsMissing).messages = ["Destination path does not exist"])) :=
  ⟨Or.inl rfl, C4_missing_directory_short_circuits "mocap" "out" fsMissing (Or.inl rfl)⟩

/-- C5: when both directories exist, exactly the source-directory entries
ending in ".bvh" are processed, in order, each written to the same
filename under the destination directory. -/
theorem C5_selects_bvh_files (src dst : String) (fs : FileSys)
    (h1 : fs.pathExists src = true) (h2 : fs.pathExists dst = true) :
    (runMain src dst fs).processed
        = ((fs.listdir src).filter (fun f => f.endsWith ".bvh")).map
            (fun f => (joinPath src f, joinPath dst f))
      ∧ ∀ s d, ((s, d) ∈ (runMain src dst fs).processed
          ↔ ∃ f ∈ fs.listdir src, f.endsWith ".bvh" = true
              ∧ s = joinPath src f ∧ d = joinPath dst f) := by
  have hp : (runMain src dst fs).processed
      = ((fs.listdir src).filter (fun f => f.endsWith ".bvh")).map
          (fun f => (joinPath src f, joinPath dst f)) := by
    simp [runMain, h1, h2]
  refine ⟨hp, ?_⟩
  intro s d
  rw [hp]
  simp only [List.mem_map, List.mem_filter, Prod.mk.injEq]
  constructor
  · rintro ⟨f, ⟨hf1, hf2⟩, h3, h4⟩
    exact ⟨f, hf1, hf2, h3.symm, h4.symm⟩
  · rintro ⟨f, hf1, hf2, h3, h4⟩
    exact ⟨f, ⟨hf1, hf2⟩, h3.symm, h4.symm⟩

/-- The file system of the C5 witness: both directories exist; the source
listing mixes ".bvh" entries with others. -/
def fsBoth : FileSys :=
  ⟨fun _ => true, fun _ => ["walk.bvh", "notes.txt", "run.bvh", "bvh", "dance.Bvh"]⟩

/-- C5 witness: concrete run selecting exactly the ".bvh" entries. -/
theorem C5_selects_bvh_files_witness :
    (fsBoth.pathExists "mocap" = true ∧ fsBoth.pathExists "out" = true)
      ∧ ((runMain "mocap" "out" fsBoth).processed
          = ((fsBoth.listdir "mocap").filter (fun f => f.endsWith ".bvh")).map
              (fun f => (joinPath "mocap" f, joinPath "out" f))
        ∧ ∀ s d, ((s, d) ∈ (runMain "mocap" "out" fsBoth).processed
            ↔ ∃ f ∈ fsBoth.listdir "mocap", f.endsWith ".bvh" = true
                ∧ s = joinPath "mocap" f ∧ d = joinPath "out" f)) :=
  ⟨⟨rfl, rfl⟩, C5_selects_bvh_files "mocap" "out" fsBoth rfl rfl⟩

/-- C6 (amended): `modifyFile` is not idempotent on either of its
outputs: rerunning it on the final pass-2 output, and also on the pass-1
intermediate output, produces a different final file, because the rerun
re-applies the fixed per-frame corrections (and, on the pass-2 output,
addresses a layout shifted by the extra root).  Shown on the concrete
two-frame Bandai skeleton: the reruns differ from the final output
already at layout entry 1 (an extra container joint instead of Hips) and
at the Spine's keyframe rotations (an extra roll). -/
theorem C6_not_idempotent :
    (modifyFile (modifyFile bandaiFileW).2).2.root ≠ (modifyFile bandaiFileW).2.root
      ∧ (modifyFile (modifyFile bandaiFileW).1).2.root ≠ (modifyFile bandaiFileW).2.root := by
  constructor
  · intro h
    have h2 := congrArg (fun r => (r.layout.getD 1 Joint.defaultJoint).name) h
    exact absurd h2 (by decide)
  · intro h
    have h2 := congrArg
      (fun r => (r.layout.getD 2 Joint.defaultJoint).keyframes.map (fun t => t.rotation)) h
    exact absurd h2 (by decide)

/-- C6 counterexample: rerunning `modifyFile` on the pass-1 intermediate
output does not reproduce the final output either (the Spine's keyframe
rotations receive the fixed roll a second time), refuting the claimed
idempotence against the pass-1 output. -/
theorem C6_counterexample :
    (modifyFile (modifyFile bandaiFileW).1).2.root ≠ (modifyFile bandaiFileW).2.root := by
  intro h
  have h2 := congrArg
    (fun r => (r.layout.getD 2 Joint.defaultJoint).keyframes.map (fun t => t.rotation)) h
  exact absurd h2 (by decide)

/-- C7: the intermediate write drops the synthetic container root - the
first child of the processed hierarchy becomes the written root - and
both the pass-1 and pass-2 writes use the fixed frame time 1/30. -/
theorem C7_drop_root_and_frame_time {K : Type} [Field K] (src : BvhFile K) :
    (modifyFile src).1.frameTime = 1 / 30 ∧ (modifyFile src).2.frameTime = 1 / 30
      ∧ (modifyFile src).1.root
          = ((readAsHierarchy src).setTPose.frameLoop).children.headD Joint.defaultJoint :=
  ⟨rfl, rfl, rfl⟩

/-- C8: in pass 2, after the motion removal, the hierarchy root (layout
index 0) gets rest rotation `(0, 90, 0)` while its rest position, scale
and keyframes are kept as reloaded. -/
theorem C8_pass2_root_rest_rotation {K : Type} [Field K] (dst : BvhFile K) :
    (pass2 dst).root.layout.getD 0 Joint.defaultJoint = (pass2 dst).root
      ∧ (pass2 dst).root.restPose.rotation = eulerXYZ 0 90 0
      ∧ (pass2 dst).root.restPose.position = (readAsBvhRoot dst).restPose.position
      ∧ (pass2 dst).root.restPose.scale = (readAsBvhRoot dst).restPose.scale
      ∧ (pass2 dst).root.keyframes = (readAsBvhRoot dst).keyframes :=
  ⟨rfl, rfl, rfl, rfl, rfl⟩

/-- C9: for every input file, loading zeroes the X and Z components of
the offset of the first child of the BVH root (the file's root joint,
placing the skeleton over the origin of the ground plane) while keeping
its Y component and everything else - rotation, scale, keyframes, name
and all deeper joints - unchanged. -/
theorem C9_zero_first_child_offset {K : Type} [Field K] (file : BvhFile K) :
    (readAsHierarchy file).children.toList.length = 1
      ∧ ((readAsHierarchy file).children.headD Joint.defaultJoint).restPose.position.x = 0
      ∧ ((readAsHierarchy file).children.headD Joint.defaultJoint).restPose.position.z = 0
      ∧ ((readAsHierarchy file).children.headD Joint.defaultJoint).restPose.position.y
          = file.root.restPose.position.y
      ∧ ((readAsHierarchy file).children.headD Joint.defaultJoint).restPose.rotation
          = file.root.restPose.rotation
      ∧ ((readAsHierarchy file).children.headD Joint.defaultJoint).restPose.scale
          = file.root.restPose.scale
      ∧ ((readAsHierarchy file).children.headD Joint.defaultJoint).keyframes
          = file.root.keyframes
      ∧ ((readAsHierarchy file).children.headD Joint.defaultJoint).children
          = file.root.children
      ∧ ((readAsHierarchy file).children.headD Joint.defaultJoint).name = file.root.name := by
  obtain ⟨root, ft⟩ := file
  obtain ⟨n, r, k, cs⟩ := root
  exact ⟨rfl, rfl, rfl, rfl, rfl, rfl, rfl, rfl, rfl⟩

/-- C10: `remove_motion` changes nothing but keyframe positions - for
every joint of the subtree it keeps the name, the whole rest pose, the
keyframe count and every keyframe's rotation and scale - and pass 2,
which invokes it only on the children of the reloaded root, leaves the
root's own (empty) keyframe list untouched. -/
theorem C10_remove_motion_frame_effect {K : Type} [Field K] :
    (∀ (j : Joint K) (restCtx : Affine K) (ctxs : ℕ → Affine K),
        (j.remove_motion restCtx ctxs).layout.map
            (fun n => (n.name, n.restPose, n.keyframes.map (fun t => (t.rotation, t.scale)),
              n.keyframes.length))
          = j.layout.map
              (fun n => (n.name, n.restPose, n.keyframes.map (fun t => (t.rotation, t.scale)),
                n.keyframes.length)))
      ∧ ∀ dst : BvhFile K, (pass2 dst).root.keyframes = (readAsBvhRoot dst).keyframes :=
  ⟨fun j restCtx ctxs => Joint.remove_motion_frame j restCtx ctxs, fun _ => rfl⟩
